import Mathlib

/-
Verification development for the `agro_scraper` repository.

The subject is `src/large_scale_scraper.py` (class
`LargeScaleAgricultureScraper`) together with the constants of
`config/settings.py`.  The Python code is shallowly embedded: the three
tracking sets become `Finset String`, the mutable statistics counters become
natural-number fields of an explicit state record, Python floats are embedded
as exact rationals, and the external Wikipedia API is an oracle
(`Wiki`) mapping a title to a fetch outcome.  Each registry-mutating method
becomes a pure state transformer; a crawl is a sequence of such transitions
(`Step` / `Reachable`), and the full `run_comprehensive_scraping` driver is
embedded as an executable function parametrised by the oracle, by the
(arbitrary) iteration order of Python's `set`, and by the (arbitrary)
completion order of the thread pool.
-/

namespace AgroScraper

/-! ### Configuration constants (config/settings.py, SCRAPING_CONFIG) -/

def max_pages_per_category : ℕ := 500

def max_links_per_page : ℕ := 100

def max_depth : ℕ := 3

def max_total_pages : ℕ := 10000

/-- AGRICULTURE_KEYWORDS from config/settings.py, in source order. -/
def AGRICULTURE_KEYWORDS : List String :=
  ["agriculture", "farm", "crop", "soil", "irrigation", "harvest", "livestock",
   "organic", "sustainable", "horticulture", "agri", "farming", "cultivation",
   "cattle", "poultry", "fertilizer", "pesticide", "agronomy", "hydroponics",
   "greenhouse", "agricultural", "agro", "yield", "plantation", "orchard",
   "pasture", "dairy", "meat", "wool", "fiber", "feed", "forage", "silage",
   "compost", "manure", "tillage", "harvester", "tractor", "irrigate",
   "aquaculture", "fishery", "forestry", "timber", "lumber", "silviculture",
   "agribusiness", "food security", "crop rotation", "soil conservation"]

/-! ### Python string primitives

`pyLower` models `str.lower`, `containsSub` models the substring test
`needle in hay`, and `countOcc` models `hay.count(needle)`: the number of
non-overlapping occurrences, scanning left to right and skipping past each
match (Python returns `len(hay) + 1` for an empty needle). -/

def pyLower (s : String) : String := ⟨s.data.map Char.toLower⟩

/-- Python substring test: does `p` occur as a contiguous sublist of `s`? -/
def containsSub (p : List Char) : List Char → Bool
  | [] => p.isEmpty
  | c :: rest => p.isPrefixOf (c :: rest) || containsSub p rest

/-- Helper for `countOcc`: scan the text; while the skip counter is positive
we are inside a previously counted match and consume characters without
looking for a new match. -/
def countOccAux (p : List Char) : List Char → ℕ → ℕ
  | [], _ => 0
  | _ :: rest, Nat.succ k => countOccAux p rest k
  | c :: rest, 0 =>
    if p.isPrefixOf (c :: rest) then 1 + countOccAux p rest (p.length - 1)
    else countOccAux p rest 0

/-- Python `s.count(p)`: non-overlapping occurrences of `p` in `s`. -/
def countOcc (p s : List Char) : ℕ :=
  if p = [] then s.length + 1 else countOccAux p s 0

/-- Python `len(text.split())`: whitespace-separated words, empties dropped. -/
def pyWordCount (s : String) : ℕ :=
  ((s.split fun c => c.isWhitespace).filter fun w => !w.isEmpty).length

/-! ### Relevance scorer (`calculate_agriculture_score`, lines 84-106)

Python float arithmetic is embedded as exact rational arithmetic; the three
weighted passes (title, content, categories) are kept as the same three folds
the source performs. -/

def calculate_agriculture_score (page_title : String) (content : String)
    (categories : List String) : ℚ :=
  let content_lower := pyLower content
  let title_lower := pyLower page_title
  let s1 : ℚ := AGRICULTURE_KEYWORDS.foldl
    (fun score keyword =>
      if containsSub keyword.data title_lower.data then score + 2 else score) 0
  let s2 : ℚ := AGRICULTURE_KEYWORDS.foldl
    (fun score keyword =>
      score + (countOcc keyword.data content_lower.data : ℚ) * (1/10)) s1
  let s3 : ℚ := categories.foldl
    (fun score category =>
      AGRICULTURE_KEYWORDS.foldl
        (fun sc keyword =>
          if containsSub keyword.data (pyLower category).data then sc + 1
          else sc) score) s2
  s3

/-- `is_agriculture_related` (lines 222-225): any keyword occurs in the
lower-cased title. -/
def is_agriculture_related (title : String) : Bool :=
  AGRICULTURE_KEYWORDS.any fun keyword =>
    containsSub keyword.data (pyLower title).data

/-! ### Specification-side restatement of the scorer

`scoreSpec` is written from the words of the spec (claim C6): 2.0 per
distinct keyword occurring in the lower-cased title, 0.1 per non-overlapping
occurrence of each keyword in the lower-cased body, 1.0 per
(keyword, category) pair with the keyword a substring of the lower-cased
category name.  It is compared against `calculate_agriculture_score`. -/

def scoreSpec (title content : String) (categories : List String) : ℚ :=
  2 * (AGRICULTURE_KEYWORDS.countP
        (fun k => containsSub k.data (pyLower title).data) : ℚ)
  + (1/10) * ((AGRICULTURE_KEYWORDS.map
        (fun k => (countOcc k.data (pyLower content).data : ℚ))).sum)
  + 1 * ((categories.map
        (fun c => (AGRICULTURE_KEYWORDS.countP
          (fun k => containsSub k.data (pyLower c).data) : ℚ))).sum)

/-! ### The external fetcher (wikipediaapi), as an oracle

A fetch of a title either finds no page (`page.exists()` false), raises a
transport exception, or yields the page's data.  `members` models
`page.categorymembers` (used when the title names a category),
`links` models `page.links`.  Presentational fields the claims never
mention (url, summary, section tree, page id, revision id, timestamps) are
omitted from the embedding. -/

structure PageInfo where
  text : String
  categories : List String
  links : List String
  members : List String
  deriving DecidableEq

inductive FetchResult where
  | notFound
  | error
  | success (info : PageInfo)
  deriving DecidableEq

structure Wiki where
  fetch : String → FetchResult

/-- Links of a title as the oracle reports them (empty when the page does not
exist or the fetch fails). -/
def pageLinks (w : Wiki) (t : String) : List String :=
  match w.fetch t with
  | .success info => info.links
  | _ => []

/-- Category members of a title as the oracle reports them. -/
def pageMembers (w : Wiki) (t : String) : List String :=
  match w.fetch t with
  | .success info => info.members
  | _ => []

/-! ### Scraper state

The `AgriculturePage` dataclass (fields relevant to the claims) and the
mutable state of `LargeScaleAgricultureScraper.__init__` (lines 42-64): the
three tracking sets, the result list `scraped_pages`, and the statistics
counters.  `start_time` (wall-clock) is not modelled; `failed_requests` is
initialised by the source and never incremented in this file of the repo. -/

structure AgriculturePage where
  title : String
  full_text : String
  categories : List String
  links : List String
  word_count : ℕ
  agriculture_score : ℚ
  deriving DecidableEq

structure ScraperState where
  scraped_titles : Finset String
  queued_titles : Finset String
  failed_titles : Finset String
  scraped_pages : List AgriculturePage
  total_scraped : ℕ
  total_words : ℕ
  agriculture_pages : ℕ
  failed_requests : ℕ
  deriving DecidableEq

def initState : ScraperState :=
  { scraped_titles := ∅
    queued_titles := ∅
    failed_titles := ∅
    scraped_pages := []
    total_scraped := 0
    total_words := 0
    agriculture_pages := 0
    failed_requests := 0 }

/-- Union of the three tracking sets (the spec's `totalSeen` universe). -/
def seenSet (s : ScraperState) : Finset String :=
  s.scraped_titles ∪ s.queued_titles ∪ s.failed_titles

/-! ### scrape_page_comprehensive (lines 108-164)

Faithful branch structure: an early return when the title is already in
`scraped_titles`; on a non-existing page the title is added to
`failed_titles` (the source does NOT discard it from `queued_titles` on this
path); on an exception the title is added to `failed_titles` and discarded
from `queued_titles`; on success the score is computed, low-scoring pages
without the `'agriculture'` title override are skipped with no state change,
and accepted pages update the statistics, move the title into
`scraped_titles` and out of `queued_titles`, and return the page record
(its stored links capped at `max_links_per_page`). -/

def scrape_page_comprehensive (w : Wiki) (s : ScraperState)
    (page_title : String) : ScraperState × Option AgriculturePage :=
  if page_title ∈ s.scraped_titles then (s, none)
  else
    match w.fetch page_title with
    | .notFound =>
        ({ s with failed_titles := insert page_title s.failed_titles }, none)
    | .error =>
        ({ s with failed_titles := insert page_title s.failed_titles
                  queued_titles := s.queued_titles.erase page_title }, none)
    | .success info =>
        let agriculture_score :=
          calculate_agriculture_score page_title info.text info.categories
        if agriculture_score < 1/2 ∧
            containsSub "agriculture".data (pyLower page_title).data = false
        then (s, none)
        else
          let page_data : AgriculturePage :=
            { title := page_title
              full_text := info.text
              categories := info.categories
              links := info.links.take max_links_per_page
              word_count := pyWordCount info.text
              agriculture_score := agriculture_score }
          ({ s with
              total_scraped := s.total_scraped + 1
              total_words := s.total_words + page_data.word_count
              agriculture_pages :=
                if 1 < agriculture_score then s.agriculture_pages + 1
                else s.agriculture_pages
              scraped_titles := insert page_title s.scraped_titles
              queued_titles := s.queued_titles.erase page_title },
           some page_data)

/-- One batch-collection step: `scrape_page_comprehensive` plus the caller's
`self.scraped_pages.extend(...)` of the returned record (lines 329-330). -/
def scrapeStep (w : Wiki) (s : ScraperState) (page_title : String) :
    ScraperState :=
  let r := scrape_page_comprehensive w s page_title
  { r.1 with scraped_pages := r.1.scraped_pages ++ r.2.toList }

/-! ### Admission paths (lines 186-242)

Each admission loop checks membership of `scraped_titles` and
`queued_titles` on the current (mutating) state; none of them consults
`failed_titles`.  Only `explore_links` checks the page cap, and it compares
`len(scraped) + len(queued)` against `max_total_pages`.  A transport error
while fetching a portal or category page is not caught by the source (it
would propagate); it is modelled like a non-existing page, i.e. no state
change and no admissions. -/

def get_category_pages (w : Wiki) (s : ScraperState) (category_name : String)
    (maxPages : Option ℕ) : ScraperState × List String :=
  let max_pages := maxPages.getD max_pages_per_category
  match w.fetch category_name with
  | .success info =>
      (info.members.take max_pages).foldl
        (fun acc page_title =>
          if page_title ∉ acc.1.scraped_titles ∧
              page_title ∉ acc.1.queued_titles then
            ({ acc.1 with
                queued_titles := insert page_title acc.1.queued_titles },
             acc.2 ++ [page_title])
          else acc)
        (s, [])
  | _ => (s, [])

def get_portal_links (w : Wiki) (s : ScraperState) (portal_name : String) :
    ScraperState × List String :=
  match w.fetch portal_name with
  | .success info =>
      (info.links.take max_links_per_page).foldl
        (fun acc link_title =>
          if link_title ∉ acc.1.scraped_titles ∧
              link_title ∉ acc.1.queued_titles ∧
              is_agriculture_related link_title = true then
            ({ acc.1 with
                queued_titles := insert link_title acc.1.queued_titles },
             acc.2 ++ [link_title])
          else acc)
        (s, [])
  | _ => (s, [])

def explore_links (s : ScraperState) (page_data : AgriculturePage)
    (depth : ℕ) : ScraperState × List String :=
  if max_depth ≤ depth then (s, [])
  else
    page_data.links.foldl
      (fun acc link_title =>
        if is_agriculture_related link_title = true ∧
            link_title ∉ acc.1.scraped_titles ∧
            link_title ∉ acc.1.queued_titles ∧
            acc.1.scraped_titles.card + acc.1.queued_titles.card <
              max_total_pages then
          ({ acc.1 with
              queued_titles := insert link_title acc.1.queued_titles },
           acc.2 ++ [link_title])
        else acc)
      (s, [])

/-! ### scrape_batch and the run loop (lines 244-346)

`scrape_batch` submits `page_titles[:batch_size]` to a worker pool and
collects results in completion order; the embedding sequentialises it as a
fold over `order i (titles.take batch_size)`, where `order` is an arbitrary
reordering oracle indexed by the batch start offset `i` (soundness theorems
only assume the reordered list's members come from the batch).

`run_comprehensive_scraping` seeds from portals and categories, dedups via
Python's `list(set(...))` (modelled by an arbitrary `dedup` oracle), then
iterates `for i in range(0, len(all_pages_to_scrape), 100)`.  Python
evaluates that `range` once, so the index sequence is fixed by the length
of the deduplicated seed list even though the list itself grows during the
loop; `pyRange` reproduces this.  `save_progress` (file output only, no
registry effect) is modelled separately and omitted here.  The second
component accumulates every title ever handed to the worker pool. -/

def scrape_batch (w : Wiki) (order : ℕ → List String → List String)
    (i : ℕ) (s : ScraperState) (page_titles : List String)
    (batch_size : ℕ) : ScraperState × List AgriculturePage :=
  (order i (page_titles.take batch_size)).foldl
    (fun acc title =>
      let r := scrape_page_comprehensive w acc.1 title
      (r.1, acc.2 ++ r.2.toList))
    (s, [])

/-- Link expansion phase of one loop iteration (lines 335-339): for each page
of the completed batch, if the scraped count is below the cap, explore its
links at depth 1 and extend the pending list. -/
def expandBatch (pages : List AgriculturePage) (s : ScraperState)
    (all : List String) : ScraperState × List String :=
  pages.foldl
    (fun acc page =>
      if acc.1.scraped_titles.card < max_total_pages then
        let r := explore_links acc.1 page 1
        (r.1, acc.2 ++ r.2)
      else acc)
    (s, all)

/-- The index sequence of `range(0, n, 100)`, computed once. -/
def pyRange (n : ℕ) : List ℕ := (List.range ((n + 99) / 100)).map (· * 100)

def runLoop (w : Wiki) (order : ℕ → List String → List String) :
    List ℕ → List String → ScraperState → Finset String →
    ScraperState × Finset String
  | [], _, s, dispatched => (s, dispatched)
  | i :: rest, all, s, dispatched =>
    if max_total_pages ≤ s.scraped_titles.card then (s, dispatched)
    else
      let batch := (all.drop i).take 100
      let sb := scrape_batch w order i s batch 100
      let s1 := { sb.1 with scraped_pages := sb.1.scraped_pages ++ sb.2 }
      let ex := expandBatch sb.2 s1 all
      runLoop w order rest ex.2 ex.1 (dispatched ∪ batch.toFinset)

def run_comprehensive_scraping (w : Wiki)
    (portals categories : List String)
    (dedup : List String → List String)
    (order : ℕ → List String → List String) :
    ScraperState × Finset String :=
  let p := portals.foldl
    (fun acc portal =>
      let r := get_portal_links w acc.1 portal
      (r.1, acc.2 ++ r.2))
    (initState, [])
  let c := categories.foldl
    (fun acc category =>
      let r := get_category_pages w acc.1 category none
      (r.1, acc.2 ++ r.2))
    p
  let all := dedup c.2
  runLoop w order (pyRange all.length) all c.1 ∅

/-! ### export_to_dataframe (lines 348-371)

One row per retained page; numeric/derived columns only as far as the
claims mention them.  `is_high_agriculture` is `score > 2.0`. -/

structure ExportRow where
  title : String
  full_text_length : ℕ
  word_count : ℕ
  categories_count : ℕ
  links_count : ℕ
  agriculture_score : ℚ
  is_high_agriculture : Bool
  deriving DecidableEq

def export_to_dataframe (s : ScraperState) : List ExportRow :=
  s.scraped_pages.map fun page =>
    { title := page.title
      full_text_length := page.full_text.length
      word_count := page.word_count
      categories_count := page.categories.length
      links_count := page.links.length
      agriculture_score := page.agriculture_score
      is_high_agriculture := decide ((2 : ℚ) < page.agriculture_score) }

/-! ### save_progress (lines 261-292)

The filesystem is an oracle of which fallible operations fail.  The two
`os.makedirs` calls happen BEFORE the `try` block, so their exceptions
propagate to the caller (`raised`); the CSV/JSON serialisation and writes
are inside `try/except`, so their failures are logged and `False` is
returned (`caught`).  Output paths are timestamped, so writes only ever add
artifacts; the durable store is modelled as an append-only list.  The CSV is
written before the JSON, so a JSON failure still leaves the new CSV behind.
An empty result list returns early (`None`, modelled `noData`). -/

inductive Artifact where
  | csv (rows : List ExportRow)
  | json (pages : List AgriculturePage)
  deriving DecidableEq

structure FSOracle where
  mkdirProcessedFails : Bool
  mkdirRawFails : Bool
  csvWriteFails : Bool
  jsonWriteFails : Bool
  deriving DecidableEq

inductive SaveOutcome where
  | raised
  | noData
  | caught
  | saved
  deriving DecidableEq

def save_progress (fs : FSOracle) (s : ScraperState)
    (store : List Artifact) : SaveOutcome × List Artifact :=
  if s.scraped_pages.isEmpty then (.noData, store)
  else if fs.mkdirProcessedFails then (.raised, store)
  else if fs.mkdirRawFails then (.raised, store)
  else if fs.csvWriteFails then (.caught, store)
  else if fs.jsonWriteFails then
    (.caught, store ++ [.csv (export_to_dataframe s)])
  else
    (.saved, store ++ [.csv (export_to_dataframe s),
                       .json s.scraped_pages])

/-! ### Registry transitions and reachability

One `Step` per registry-mutating operation of the class, each against an
arbitrary oracle response: portal-link enumeration, category-member
enumeration (with the run's default `max_pages`), outbound-link expansion,
and a scrape resolution (success/accept, success/reject, not-found, or
fetch error, depending on the oracle), including the caller's collection of
the returned record. -/

inductive Step : ScraperState → ScraperState → Prop where
  | portal (w : Wiki) (s : ScraperState) (name : String) :
      Step s (get_portal_links w s name).1
  | category (w : Wiki) (s : ScraperState) (name : String) :
      Step s (get_category_pages w s name none).1
  | explore (s : ScraperState) (page : AgriculturePage) (depth : ℕ) :
      Step s (explore_links s page depth).1
  | scrape (w : Wiki) (s : ScraperState) (title : String) :
      Step s (scrapeStep w s title)

def Reachable (s : ScraperState) : Prop :=
  Relation.ReflTransGen Step initState s

/-! ### Link distance from the seeds

`Near w portals cats d t` means title `t` is reachable from some configured
seed in at most `d` link hops: portal links and category members are one hop
from their seed, and each stored outbound link of a reachable page is one
hop further. -/

inductive Near (w : Wiki) (portals categories : List String) :
    ℕ → String → Prop where
  | portalLink {p t d} : p ∈ portals → t ∈ pageLinks w p →
      Near w portals categories (d + 1) t
  | catMember {c t d} : c ∈ categories → t ∈ pageMembers w c →
      Near w portals categories (d + 1) t
  | link {t u d} : Near w portals categories d t → u ∈ pageLinks w t →
      Near w portals categories (d + 1) u
  | succ {t d} : Near w portals categories d t →
      Near w portals categories (d + 1) t

/-! ### Concrete oracles and states used in the analysis -/

/-- A wiki whose agriculture portal links to the single page "Farm", every
other fetch reporting a non-existing page. -/
def cexWiki1 : Wiki :=
  ⟨fun t => if t = "Portal:Agriculture"
            then .success ⟨"", [], ["Farm"], []⟩ else .notFound⟩

/-- State after enumerating the portal of `cexWiki1`: "Farm" is queued. -/
def cexState1a : ScraperState :=
  (get_portal_links cexWiki1 initState "Portal:Agriculture").1

/-- State after the queued "Farm" then resolves as not-found. -/
def cexState1b : ScraperState := scrapeStep cexWiki1 cexState1a "Farm"

/-- A wiki with a category "Cat" whose sole member "Tree" exists with empty
text and no categories, so that its relevance score is zero. -/
def cexWiki2 : Wiki :=
  ⟨fun t => if t = "Cat" then .success ⟨"", [], [], ["Tree"]⟩
            else if t = "Tree" then .success ⟨"", [], [], []⟩
            else .notFound⟩

/-- State after enumerating category "Cat" of `cexWiki2`: "Tree" is queued. -/
def cexState2 : ScraperState :=
  (get_category_pages cexWiki2 initState "Cat" none).1

/-- A wiki whose agriculture portal links to "Farm" while fetching any other
title raises a transport error. -/
def cexWiki3 : Wiki :=
  ⟨fun t => if t = "Portal:Agriculture"
            then .success ⟨"", [], ["Farm"], []⟩ else .error⟩

/-- State after scraping "Farm" against `cexWiki3` from the initial state:
the fetch errors, so "Farm" lands in `failed_titles`. -/
def cexState3 : ScraperState := scrapeStep cexWiki3 initState "Farm"

/-- A wiki in which every title names an existing category page whose sole
member is the title itself (text empty, no categories, no links). -/
def selfWiki : Wiki := ⟨fun t => .success ⟨"", [], [], [t]⟩⟩

/-- Pairwise distinct titles: `i` repetitions of the letter a. -/
def unaryTitle (i : ℕ) : String := ⟨List.replicate i 'a'⟩

/-- A family of states with `m` distinct queued titles and everything else
as in the initial state. -/
def qState (m : ℕ) : ScraperState :=
  { initState with queued_titles := (Finset.range m).image unaryTitle }

/-- Body text consisting of `n` concatenated copies of the keyword "farm". -/
def farmText (n : ℕ) : String := ⟨(List.replicate n "farm".data).flatten⟩

/-- A one-element result list for exercising `save_progress`. -/
def cexPage : AgriculturePage := ⟨"Farm", "", [], [], 0, 0⟩

/-- A state holding one retained page. -/
def cexState9 : ScraperState := { initState with scraped_pages := [cexPage] }

/-- A filesystem on which the first directory-creation call fails. -/
def fsMkdirFails : FSOracle := ⟨true, false, false, false⟩

/-- A filesystem on which only the CSV write fails. -/
def fsCsvFails : FSOracle := ⟨false, false, true, false⟩

/-- A fully healthy filesystem. -/
def fsOk : FSOracle := ⟨false, false, false, false⟩

/-! ## Helper lemmas about the string primitives -/

lemma prefixOf_nil (s : List Char) :
    List.isPrefixOf ([] : List Char) s = true := by
  cases s <;> rfl

lemma prefixOf_cons (a b : Char) (as bs : List Char) :
    (a :: as).isPrefixOf (b :: bs) = (a == b && as.isPrefixOf bs) := rfl

lemma prefixOf_self (p : List Char) : p.isPrefixOf p = true := by
  induction p with
  | nil => rfl
  | cons a as ih => simp [prefixOf_cons, ih]

lemma prefixOf_length_le {p : List Char} :
    ∀ {s : List Char}, p.isPrefixOf s = true → p.length ≤ s.length := by
  induction p with
  | nil => intro s _; simp
  | cons a as ih =>
    intro s h
    cases s with
    | nil => simp [List.isPrefixOf] at h
    | cons b bs =>
      rw [prefixOf_cons, Bool.and_eq_true] at h
      simpa using ih h.2

lemma prefixOf_append_right {p : List Char} (u : List Char) :
    ∀ {s : List Char}, p.isPrefixOf s = true →
      p.isPrefixOf (s ++ u) = true := by
  induction p with
  | nil => intro s _; exact prefixOf_nil _
  | cons a as ih =>
    intro s h
    cases s with
    | nil => simp [List.isPrefixOf] at h
    | cons b bs =>
      rw [prefixOf_cons, Bool.and_eq_true] at h
      rw [List.cons_append, prefixOf_cons, Bool.and_eq_true]
      exact ⟨h.1, ih h.2⟩

lemma prefixOf_of_append_of_le {p : List Char} {u : List Char} :
    ∀ {s : List Char}, p.isPrefixOf (s ++ u) = true →
      p.length ≤ s.length → p.isPrefixOf s = true := by
  induction p with
  | nil => intro s _ _; exact prefixOf_nil _
  | cons a as ih =>
    intro s h hl
    cases s with
    | nil => simp at hl
    | cons b bs =>
      rw [List.cons_append, prefixOf_cons, Bool.and_eq_true] at h
      rw [prefixOf_cons, Bool.and_eq_true]
      refine ⟨h.1, ih h.2 ?_⟩
      simp only [List.length_cons] at hl
      omega

lemma countOccAux_drop (p : List Char) :
    ∀ (s : List Char) (k : ℕ), countOccAux p s k = countOccAux p (s.drop k) 0 := by
  intro s
  induction s with
  | nil => intro k; simp [countOccAux]
  | cons c rest ih =>
    intro k
    cases k with
    | zero => rfl
    | succ k =>
      simpa only [countOccAux, List.drop_succ_cons] using ih k

lemma countOccAux_eq_zero_of_lt {p : List Char} :
    ∀ {s : List Char} (k : ℕ), s.length < p.length → countOccAux p s k = 0 := by
  intro s
  induction s with
  | nil => intro k _; rfl
  | cons c rest ih =>
    intro k h
    have hrest : rest.length < p.length := by
      simp only [List.length_cons] at h; omega
    cases k with
    | succ k => exact ih k hrest
    | zero =>
      have hp : ¬ p.isPrefixOf (c :: rest) = true := by
        intro hpre
        have := prefixOf_length_le hpre
        omega
      simp only [countOccAux]
      rw [if_neg hp]
      exact ih 0 hrest

lemma countOccAux_le_append (p u : List Char) :
    ∀ (s : List Char) (k : ℕ),
      countOccAux p s k ≤ countOccAux p (s ++ u) k := by
  intro s
  induction s with
  | nil => intro k; simp [countOccAux]
  | cons c rest ih =>
    intro k
    cases k with
    | succ k =>
      simpa only [countOccAux, List.cons_append] using ih k
    | zero =>
      by_cases hp : p.isPrefixOf (c :: rest) = true
      · have hp2 : p.isPrefixOf (c :: (rest ++ u)) = true := by
          have := prefixOf_append_right u hp
          simpa using this
        simp only [countOccAux, List.cons_append, List.append_eq]
        rw [if_pos hp, if_pos hp2]
        exact Nat.add_le_add_left (ih _) 1
      · by_cases hp2 : p.isPrefixOf (c :: (rest ++ u)) = true
        · have hs : (c :: rest).length < p.length := by
            by_contra hge
            push_neg at hge
            exact hp (prefixOf_of_append_of_le (by simpa using hp2) hge)
          rw [countOccAux_eq_zero_of_lt 0 hs]
          exact Nat.zero_le _
        · simp only [countOccAux, List.cons_append, List.append_eq]
          rw [if_neg hp, if_neg hp2]
          exact ih 0

lemma countOcc_le_append (p s u : List Char) :
    countOcc p s ≤ countOcc p (s ++ u) := by
  unfold countOcc
  by_cases hp : p = []
  · rw [if_pos hp, if_pos hp]
    simp [List.length_append]
  · rw [if_neg hp, if_neg hp]
    exact countOccAux_le_append p u s 0

lemma countOcc_append_self {p : List Char} (hp : p ≠ []) (r : List Char) :
    countOcc p (p ++ r) = 1 + countOcc p r := by
  obtain ⟨c, p', hcp⟩ := List.exists_cons_of_ne_nil hp
  subst hcp
  unfold countOcc
  rw [if_neg hp, if_neg hp]
  have hpre : (c :: p').isPrefixOf (c :: (p' ++ r)) = true := by
    have h := prefixOf_append_right r (prefixOf_self (c :: p'))
    simp only [List.cons_append] at h
    exact h
  simp only [List.cons_append, countOccAux, List.append_eq]
  rw [if_pos hpre, countOccAux_drop]
  simp [List.drop_left]

lemma countOcc_flatten_replicate {p : List Char} (hp : p ≠ []) :
    ∀ n : ℕ, countOcc p ((List.replicate n p).flatten) = n := by
  intro n
  induction n with
  | zero => simp [countOcc, hp, countOccAux]
  | succ n ih =>
    rw [List.replicate_succ, List.flatten_cons, countOcc_append_self hp, ih]
    omega

lemma data_pyLower_append (s t : String) :
    (pyLower (s ++ t)).data = (pyLower s).data ++ (pyLower t).data := by
  simp [pyLower, String.data_append]

/-! ## The scorer as a closed formula -/

lemma foldl_if_add {α : Type} (p : α → Bool) (w : ℚ) :
    ∀ (l : List α) (a : ℚ),
      l.foldl (fun acc k => if p k then acc + w else acc) a
        = a + w * (l.countP p : ℚ) := by
  intro l
  induction l with
  | nil => intro a; simp
  | cons x xs ih =>
    intro a
    rw [List.foldl_cons, List.countP_cons]
    by_cases hx : p x = true
    · rw [if_pos hx, ih]
      simp only [hx, if_pos]
      push_cast
      ring
    · rw [if_neg hx, ih]
      simp only [hx]
      push_cast
      ring

lemma foldl_add_map {α : Type} (f : α → ℚ) :
    ∀ (l : List α) (a : ℚ),
      l.foldl (fun acc k => acc + f k) a = a + (l.map f).sum := by
  intro l
  induction l with
  | nil => intro a; simp
  | cons x xs ih =>
    intro a
    rw [List.foldl_cons, ih, List.map_cons, List.sum_cons]
    ring

lemma score_eq_scoreSpec (title content : String) (cats : List String) :
    calculate_agriculture_score title content cats
      = scoreSpec title content cats := by
  unfold calculate_agriculture_score scoreSpec
  simp only [foldl_if_add, foldl_add_map, List.sum_map_mul_right]
  ring_nf

lemma score_nonneg (title content : String) (cats : List String) :
    0 ≤ calculate_agriculture_score title content cats := by
  rw [score_eq_scoreSpec]
  unfold scoreSpec
  have h1 : (0:ℚ) ≤ (AGRICULTURE_KEYWORDS.countP
      (fun k => containsSub k.data (pyLower title).data) : ℚ) :=
    Nat.cast_nonneg _
  have h2 : (0:ℚ) ≤ ((AGRICULTURE_KEYWORDS.map
      (fun k => (countOcc k.data (pyLower content).data : ℚ))).sum) := by
    apply List.sum_nonneg
    intro x hx
    obtain ⟨k, _, rfl⟩ := List.mem_map.mp hx
    exact Nat.cast_nonneg _
  have h3 : (0:ℚ) ≤ ((cats.map
      (fun c => (AGRICULTURE_KEYWORDS.countP
        (fun k => containsSub k.data (pyLower c).data) : ℚ))).sum) := by
    apply List.sum_nonneg
    intro x hx
    obtain ⟨c, _, rfl⟩ := List.mem_map.mp hx
    exact Nat.cast_nonneg _
  nlinarith

lemma score_le_append_content (title : String) (cats : List String)
    (t1 extra : String) :
    calculate_agriculture_score title t1 cats ≤
      calculate_agriculture_score title (t1 ++ extra) cats := by
  rw [score_eq_scoreSpec, score_eq_scoreSpec]
  unfold scoreSpec
  have hmono : ((AGRICULTURE_KEYWORDS.map
        (fun k => (countOcc k.data (pyLower t1).data : ℚ))).sum)
      ≤ ((AGRICULTURE_KEYWORDS.map
        (fun k => (countOcc k.data (pyLower (t1 ++ extra)).data : ℚ))).sum) := by
    apply List.sum_le_sum
    intro k _
    rw [data_pyLower_append]
    exact_mod_cast countOcc_le_append k.data (pyLower t1).data (pyLower extra).data
  linarith

lemma pyLower_farmText (n : ℕ) :
    (pyLower (farmText n)).data = (List.replicate n "farm".data).flatten := by
  have hfarm : "farm".data.map Char.toLower = "farm".data := by decide
  simp [pyLower, farmText, List.map_flatten, List.map_replicate, hfarm]

lemma score_farmText (n : ℕ) :
    (n : ℚ) * (1/10) ≤ calculate_agriculture_score "" (farmText n) [] := by
  rw [score_eq_scoreSpec]
  unfold scoreSpec
  have hfarm : ((countOcc "farm".data (pyLower (farmText n)).data : ℕ) : ℚ)
      = (n : ℚ) := by
    rw [pyLower_farmText, countOcc_flatten_replicate (by decide) n]
  have hnn : ∀ x ∈ (AGRICULTURE_KEYWORDS.map
      (fun k => (countOcc k.data (pyLower (farmText n)).data : ℚ))), 0 ≤ x := by
    intro x hx
    obtain ⟨k, _, rfl⟩ := List.mem_map.mp hx
    exact Nat.cast_nonneg _
  have hmem : ((countOcc "farm".data (pyLower (farmText n)).data : ℕ) : ℚ)
      ∈ (AGRICULTURE_KEYWORDS.map
        (fun k => (countOcc k.data (pyLower (farmText n)).data : ℚ))) :=
    List.mem_map.mpr ⟨"farm", by decide, rfl⟩
  have hle := List.single_le_sum hnn _ hmem
  rw [hfarm] at hle
  have h1 : (0:ℚ) ≤ (AGRICULTURE_KEYWORDS.countP
      (fun k => containsSub k.data (pyLower "").data) : ℚ) := Nat.cast_nonneg _
  simp only [List.map_nil, List.sum_nil]
  linarith

/-! ## Claim C6 -/

/-- C6: for every title, body text and category list,
`calculate_agriculture_score` equals the closed formula of the spec — 2.0
per distinct keyword occurring as a substring of the lower-cased title, plus
0.1 per (non-overlapping) occurrence of each keyword in the lower-cased
body, plus 1.0 per (keyword, category) pair whose keyword is a substring of
the lower-cased category name — and the result is a non-negative number. -/
theorem c6_scorer_closed_form (title content : String) (cats : List String) :
    calculate_agriculture_score title content cats
        = scoreSpec title content cats ∧
    0 ≤ calculate_agriculture_score title content cats :=
  ⟨score_eq_scoreSpec title content cats, score_nonneg title content cats⟩

/-! ## Claim C8 -/

/-- C8: the relevance score is monotone under appending body text — for any
title and categories, appending further text never lowers the score — and
the score of a fixed title and category list is unbounded as the body text
grows. -/
theorem c8_score_monotone_unbounded :
    (∀ (title : String) (cats : List String) (t1 extra : String),
        calculate_agriculture_score title t1 cats ≤
          calculate_agriculture_score title (t1 ++ extra) cats) ∧
    (∀ B : ℚ, ∃ content : String,
        B < calculate_agriculture_score "" content []) := by
  refine ⟨score_le_append_content, ?_⟩
  intro B
  obtain ⟨n, hn⟩ := exists_nat_gt (10 * B)
  refine ⟨farmText n, ?_⟩
  have h := score_farmText n
  have hB : B < (n : ℚ) * (1/10) := by linarith
  linarith

/-! ## Characterisation of the admission loops

Each admission loop only ever inserts into `queued_titles`, and each inserted
title was, at insertion time, absent from `scraped_titles` and from the
queue; since the loops never remove anything, such a title was already
absent from the ORIGINAL queue.  The lemmas below state this with the newly
admitted titles made explicit. -/

lemma portal_fold_spec (l : List String) :
    ∀ (st0 : ScraperState) (out0 : List String),
      ∃ Δ : List String,
        (l.foldl
          (fun acc link_title =>
            if link_title ∉ acc.1.scraped_titles ∧
                link_title ∉ acc.1.queued_titles ∧
                is_agriculture_related link_title = true then
              ({ acc.1 with
                  queued_titles := insert link_title acc.1.queued_titles },
               acc.2 ++ [link_title])
            else acc)
          (st0, out0))
        = ({ st0 with
              queued_titles := st0.queued_titles ∪ Δ.toFinset },
           out0 ++ Δ) ∧
        ∀ t ∈ Δ, t ∉ st0.scraped_titles ∧ t ∉ st0.queued_titles ∧
          t ∈ l ∧ is_agriculture_related t = true := by
  induction l with
  | nil =>
    intro st0 out0
    exact ⟨[], by simp, by simp⟩
  | cons x xs ih =>
    intro st0 out0
    rw [List.foldl_cons]
    by_cases hc : x ∉ st0.scraped_titles ∧ x ∉ st0.queued_titles ∧
        is_agriculture_related x = true
    · rw [if_pos hc]
      obtain ⟨Δ', h1, h2⟩ :=
        ih { st0 with queued_titles := insert x st0.queued_titles }
          (out0 ++ [x])
      refine ⟨x :: Δ', ?_, ?_⟩
      · have hq : st0.queued_titles ∪ (x :: Δ').toFinset
            = insert x st0.queued_titles ∪ Δ'.toFinset := by
          simp only [List.toFinset_cons]
          rw [Finset.insert_union, Finset.union_insert]
        have hl : out0 ++ x :: Δ' = (out0 ++ [x]) ++ Δ' := by simp
        rw [hq, hl]
        exact h1
      · intro t ht
        rcases List.mem_cons.mp ht with rfl | ht'
        · exact ⟨hc.1, hc.2.1, List.mem_cons_self _ _, hc.2.2⟩
        · obtain ⟨ha, hb, hcmem, hd⟩ := h2 t ht'
          simp only [Finset.mem_insert, not_or] at hb
          exact ⟨ha, hb.2, List.mem_cons_of_mem _ hcmem, hd⟩
    · rw [if_neg hc]
      obtain ⟨Δ', h1, h2⟩ := ih st0 out0
      exact ⟨Δ', h1, fun t ht =>
        ⟨(h2 t ht).1, (h2 t ht).2.1,
         List.mem_cons_of_mem _ (h2 t ht).2.2.1, (h2 t ht).2.2.2⟩⟩

lemma get_portal_links_spec (w : Wiki) (s : ScraperState) (name : String) :
    (get_portal_links w s name).1 =
      { s with queued_titles :=
          s.queued_titles ∪ (get_portal_links w s name).2.toFinset } ∧
    ∀ t ∈ (get_portal_links w s name).2,
      t ∉ s.scraped_titles ∧ t ∉ s.queued_titles ∧
      t ∈ pageLinks w name ∧ is_agriculture_related t = true := by
  unfold get_portal_links pageLinks
  cases hf : w.fetch name with
  | notFound => exact ⟨by simp, by simp⟩
  | error => exact ⟨by simp, by simp⟩
  | success info =>
    dsimp only
    obtain ⟨Δ, h1, h2⟩ :=
      portal_fold_spec (info.links.take max_links_per_page) s []
    rw [h1]
    refine ⟨by simp, ?_⟩
    intro t ht
    simp only [List.nil_append] at ht
    obtain ⟨ha, hb, hcmem, hd⟩ := h2 t ht
    exact ⟨ha, hb, List.take_subset _ _ hcmem, hd⟩

lemma category_fold_spec (l : List String) :
    ∀ (st0 : ScraperState) (out0 : List String),
      ∃ Δ : List String,
        (l.foldl
          (fun acc page_title =>
            if page_title ∉ acc.1.scraped_titles ∧
                page_title ∉ acc.1.queued_titles then
              ({ acc.1 with
                  queued_titles := insert page_title acc.1.queued_titles },
               acc.2 ++ [page_title])
            else acc)
          (st0, out0))
        = ({ st0 with
              queued_titles := st0.queued_titles ∪ Δ.toFinset },
           out0 ++ Δ) ∧
        ∀ t ∈ Δ, t ∉ st0.scraped_titles ∧ t ∉ st0.queued_titles ∧
          t ∈ l := by
  induction l with
  | nil =>
    intro st0 out0
    exact ⟨[], by simp, by simp⟩
  | cons x xs ih =>
    intro st0 out0
    rw [List.foldl_cons]
    by_cases hc : x ∉ st0.scraped_titles ∧ x ∉ st0.queued_titles
    · rw [if_pos hc]
      obtain ⟨Δ', h1, h2⟩ :=
        ih { st0 with queued_titles := insert x st0.queued_titles }
          (out0 ++ [x])
      refine ⟨x :: Δ', ?_, ?_⟩
      · have hq : st0.queued_titles ∪ (x :: Δ').toFinset
            = insert x st0.queued_titles ∪ Δ'.toFinset := by
          simp only [List.toFinset_cons]
          rw [Finset.insert_union, Finset.union_insert]
        have hl : out0 ++ x :: Δ' = (out0 ++ [x]) ++ Δ' := by simp
        rw [hq, hl]
        exact h1
      · intro t ht
        rcases List.mem_cons.mp ht with rfl | ht'
        · exact ⟨hc.1, hc.2, List.mem_cons_self _ _⟩
        · obtain ⟨ha, hb, hcmem⟩ := h2 t ht'
          simp only [Finset.mem_insert, not_or] at hb
          exact ⟨ha, hb.2, List.mem_cons_of_mem _ hcmem⟩
    · rw [if_neg hc]
      obtain ⟨Δ', h1, h2⟩ := ih st0 out0
      exact ⟨Δ', h1, fun t ht =>
        ⟨(h2 t ht).1, (h2 t ht).2.1,
         List.mem_cons_of_mem _ (h2 t ht).2.2⟩⟩

lemma get_category_pages_spec (w : Wiki) (s : ScraperState) (name : String)
    (mp : Option ℕ) :
    (get_category_pages w s name mp).1 =
      { s with queued_titles :=
          s.queued_titles ∪ (get_category_pages w s name mp).2.toFinset } ∧
    ∀ t ∈ (get_category_pages w s name mp).2,
      t ∉ s.scraped_titles ∧ t ∉ s.queued_titles ∧
      t ∈ pageMembers w name := by
  unfold get_category_pages pageMembers
  cases hf : w.fetch name with
  | notFound => exact ⟨by simp, by simp⟩
  | error => exact ⟨by simp, by simp⟩
  | success info =>
    dsimp only
    obtain ⟨Δ, h1, h2⟩ :=
      category_fold_spec (info.members.take (mp.getD max_pages_per_category))
        s []
    rw [h1]
    refine ⟨by simp, ?_⟩
    intro t ht
    simp only [List.nil_append] at ht
    obtain ⟨ha, hb, hcmem⟩ := h2 t ht
    exact ⟨ha, hb, List.take_subset _ _ hcmem⟩

lemma explore_fold_spec (l : List String) :
    ∀ (st0 : ScraperState) (out0 : List String),
      ∃ Δ : List String,
        (l.foldl
          (fun acc link_title =>
            if is_agriculture_related link_title = true ∧
                link_title ∉ acc.1.scraped_titles ∧
                link_title ∉ acc.1.queued_titles ∧
                acc.1.scraped_titles.card + acc.1.queued_titles.card <
                  max_total_pages then
              ({ acc.1 with
                  queued_titles := insert link_title acc.1.queued_titles },
               acc.2 ++ [link_title])
            else acc)
          (st0, out0))
        = ({ st0 with
              queued_titles := st0.queued_titles ∪ Δ.toFinset },
           out0 ++ Δ) ∧
        ∀ t ∈ Δ, t ∉ st0.scraped_titles ∧ t ∉ st0.queued_titles ∧
          t ∈ l ∧ is_agriculture_related t = true ∧
          st0.scraped_titles.card + st0.queued_titles.card <
            max_total_pages := by
  induction l with
  | nil =>
    intro st0 out0
    exact ⟨[], by simp, by simp⟩
  | cons x xs ih =>
    intro st0 out0
    rw [List.foldl_cons]
    by_cases hc : is_agriculture_related x = true ∧ x ∉ st0.scraped_titles ∧
        x ∉ st0.queued_titles ∧
        st0.scraped_titles.card + st0.queued_titles.card < max_total_pages
    · rw [if_pos hc]
      obtain ⟨Δ', h1, h2⟩ :=
        ih { st0 with queued_titles := insert x st0.queued_titles }
          (out0 ++ [x])
      refine ⟨x :: Δ', ?_, ?_⟩
      · have hq : st0.queued_titles ∪ (x :: Δ').toFinset
            = insert x st0.queued_titles ∪ Δ'.toFinset := by
          simp only [List.toFinset_cons]
          rw [Finset.insert_union, Finset.union_insert]
        have hl : out0 ++ x :: Δ' = (out0 ++ [x]) ++ Δ' := by simp
        rw [hq, hl]
        exact h1
      · intro t ht
        rcases List.mem_cons.mp ht with rfl | ht'
        · exact ⟨hc.2.1, hc.2.2.1, List.mem_cons_self _ _, hc.1, hc.2.2.2⟩
        · obtain ⟨ha, hb, hcmem, hd, hcard⟩ := h2 t ht'
          simp only [Finset.mem_insert, not_or] at hb
          refine ⟨ha, hb.2, List.mem_cons_of_mem _ hcmem, hd, ?_⟩
          have hins : st0.queued_titles.card ≤
              (insert x st0.queued_titles).card :=
            Finset.card_le_card (Finset.subset_insert _ _)
          simp only at hcard
          omega
    · rw [if_neg hc]
      obtain ⟨Δ', h1, h2⟩ := ih st0 out0
      exact ⟨Δ', h1, fun t ht =>
        ⟨(h2 t ht).1, (h2 t ht).2.1,
         List.mem_cons_of_mem _ (h2 t ht).2.2.1,
         (h2 t ht).2.2.2.1, (h2 t ht).2.2.2.2⟩⟩

lemma explore_links_spec (s : ScraperState) (page : AgriculturePage)
    (depth : ℕ) :
    (explore_links s page depth).1 =
      { s with queued_titles :=
          s.queued_titles ∪ (explore_links s page depth).2.toFinset } ∧
    ∀ t ∈ (explore_links s page depth).2,
      t ∉ s.scraped_titles ∧ t ∉ s.queued_titles ∧
      t ∈ page.links ∧ is_agriculture_related t = true ∧
      s.scraped_titles.card + s.queued_titles.card < max_total_pages := by
  unfold explore_links
  by_cases hd : max_depth ≤ depth
  · rw [if_pos hd]
    exact ⟨by simp, by simp⟩
  · rw [if_neg hd]
    obtain ⟨Δ, h1, h2⟩ := explore_fold_spec page.links s []
    rw [h1]
    exact ⟨by simp, fun t ht => h2 t (by simpa using ht)⟩

/-! ## Case analysis of a scrape resolution -/

lemma scrape_cases (w : Wiki) (s : ScraperState) (t : String) :
    scrape_page_comprehensive w s t = (s, none) ∨
    scrape_page_comprehensive w s t =
      ({ s with failed_titles := insert t s.failed_titles }, none) ∨
    scrape_page_comprehensive w s t =
      ({ s with failed_titles := insert t s.failed_titles,
                queued_titles := s.queued_titles.erase t }, none) ∨
    ∃ p : AgriculturePage,
      t ∉ s.scraped_titles ∧ p.title = t ∧
      p.agriculture_score =
        calculate_agriculture_score t p.full_text p.categories ∧
      p.links = (pageLinks w t).take max_links_per_page ∧
      scrape_page_comprehensive w s t =
        ({ s with
            total_scraped := s.total_scraped + 1,
            total_words := s.total_words + p.word_count,
            agriculture_pages :=
              if 1 < p.agriculture_score then s.agriculture_pages + 1
              else s.agriculture_pages,
            scraped_titles := insert t s.scraped_titles,
            queued_titles := s.queued_titles.erase t }, some p) := by
  unfold scrape_page_comprehensive
  by_cases hmem : t ∈ s.scraped_titles
  · left; rw [if_pos hmem]
  · rw [if_neg hmem]
    cases hf : w.fetch t with
    | notFound => right; left; rfl
    | error => right; right; left; rfl
    | success info =>
      dsimp only
      by_cases hrej :
          calculate_agriculture_score t info.text info.categories < 1/2 ∧
          containsSub "agriculture".data (pyLower t).data = false
      · left; rw [if_pos hrej]
      · right; right; right
        refine ⟨⟨t, info.text, info.categories,
            info.links.take max_links_per_page, pyWordCount info.text,
            calculate_agriculture_score t info.text info.categories⟩,
          hmem, rfl, rfl, ?_, ?_⟩
        · simp [pageLinks, hf]
        · rw [if_neg hrej]

/-- Only the listed registry fields change across a collected scrape; in
particular the set of seen titles grows by at most the scraped title. -/
lemma scrapeStep_seen (w : Wiki) (s : ScraperState) (t : String) :
    seenSet (scrapeStep w s t) ⊆ insert t (seenSet s) := by
  rcases scrape_cases w s t with h | h | h | ⟨p, _, _, _, _, h⟩ <;>
    · unfold scrapeStep seenSet
      rw [h]
      intro x hx
      simp only [Finset.mem_union, Finset.mem_insert, Finset.mem_erase] at hx ⊢
      tauto

lemma scrapeStep_disjoint (w : Wiki) (s : ScraperState) (t : String)
    (h : Disjoint s.scraped_titles s.queued_titles) :
    Disjoint (scrapeStep w s t).scraped_titles
      (scrapeStep w s t).queued_titles := by
  rcases scrape_cases w s t with heq | heq | heq | ⟨p, _, _, _, _, heq⟩ <;>
      unfold scrapeStep <;> rw [heq] <;> dsimp only
  · exact h
  · exact h
  · exact h.mono_right (Finset.erase_subset _ _)
  · rw [Finset.disjoint_left]
    intro x hx
    rcases Finset.mem_insert.mp hx with rfl | hxs
    · exact Finset.not_mem_erase _ _
    · intro hxq
      exact Finset.disjoint_left.mp h hxs (Finset.mem_of_mem_erase hxq)

lemma disjoint_union_of_not_mem {A B : Finset String} {out : List String}
    (h : Disjoint A B) (hout : ∀ t ∈ out, t ∉ A) :
    Disjoint A (B ∪ out.toFinset) := by
  rw [Finset.disjoint_union_right]
  refine ⟨h, Finset.disjoint_left.mpr ?_⟩
  intro a haA haO
  exact hout a (List.mem_toFinset.mp haO) haA

/-- Every registry transition preserves disjointness of `scraped_titles`
and `queued_titles`. -/
lemma step_preserves_disjoint {a b : ScraperState} (hstep : Step a b)
    (ih : Disjoint a.scraped_titles a.queued_titles) :
    Disjoint b.scraped_titles b.queued_titles := by
  cases hstep with
  | portal w s name =>
    obtain ⟨heq, hmem⟩ := get_portal_links_spec w a name
    rw [heq]
    exact disjoint_union_of_not_mem ih fun t ht => (hmem t ht).1
  | category w s name =>
    obtain ⟨heq, hmem⟩ := get_category_pages_spec w a name none
    rw [heq]
    exact disjoint_union_of_not_mem ih fun t ht => (hmem t ht).1
  | explore s page depth =>
    obtain ⟨heq, hmem⟩ := explore_links_spec a page depth
    rw [heq]
    exact disjoint_union_of_not_mem ih fun t ht => (hmem t ht).1
  | scrape w s title => exact scrapeStep_disjoint w a title ih

/-- Every registry transition preserves the statistics invariant: the
agriculture-page counter never exceeds the scrape counter, which counts the
retained pages. -/
lemma step_preserves_stats {a b : ScraperState} (hstep : Step a b)
    (ih : a.agriculture_pages ≤ a.total_scraped ∧
      a.total_scraped = a.scraped_pages.length) :
    b.agriculture_pages ≤ b.total_scraped ∧
      b.total_scraped = b.scraped_pages.length := by
  cases hstep with
  | portal w s name =>
    obtain ⟨heq, _⟩ := get_portal_links_spec w a name
    rw [heq]
    exact ih
  | category w s name =>
    obtain ⟨heq, _⟩ := get_category_pages_spec w a name none
    rw [heq]
    exact ih
  | explore s page depth =>
    obtain ⟨heq, _⟩ := explore_links_spec a page depth
    rw [heq]
    exact ih
  | scrape w s title =>
    rcases scrape_cases w a title with h | h | h | ⟨p, _, _, _, _, h⟩ <;>
        unfold scrapeStep <;> rw [h]
    · simpa using ih
    · simpa using ih
    · simpa using ih
    · obtain ⟨ih1, ih2⟩ := ih
      dsimp only
      refine ⟨?_, by simp [ih2]⟩
      split <;> omega

/-! ## Claim C1: disjointness of the three tracking sets -/

/-- C1 is refuted on the code: from the initial state, portal enumeration
queues "Farm" (a reachable transition), and when the queued "Farm" then
resolves as not-found the source adds it to `failed_titles` WITHOUT
discarding it from `queued_titles` (line 117, contrast the error path at
lines 162-163).  The resulting reachable state has "Farm" in both
`queued_titles` and `failed_titles`, so the three sets are not pairwise
disjoint and a not-found resolution does not remove the identifier from the
queue. -/
theorem c1_counterexample :
    Reachable cexState1b ∧
    "Farm" ∈ cexState1b.queued_titles ∧
    "Farm" ∈ cexState1b.failed_titles ∧
    ¬ Disjoint cexState1b.queued_titles cexState1b.failed_titles := by
  refine ⟨?_, by decide, by decide, ?_⟩
  · exact Relation.ReflTransGen.tail
      (Relation.ReflTransGen.tail Relation.ReflTransGen.refl
        (Step.portal cexWiki1 initState "Portal:Agriculture"))
      (Step.scrape cexWiki1 cexState1a "Farm")
  · intro hd
    have h1 : "Farm" ∈ cexState1b.queued_titles := by decide
    have h2 : "Farm" ∈ cexState1b.failed_titles := by decide
    exact Finset.disjoint_left.mp hd h1 h2

/-- C1 (amended): in every reachable state, `scraped_titles` and
`queued_titles` are disjoint (a title is inserted into `scraped_titles`
only while being erased from the queue, and admission paths check both
sets).  `failed_titles` however need not be disjoint from the other two:
the not-found path inserts into `failed_titles` without discarding from
`queued_titles`, and no admission path checks `failed_titles`. -/
theorem c1_scraped_queued_disjoint (s : ScraperState) (h : Reachable s) :
    Disjoint s.scraped_titles s.queued_titles := by
  induction h with
  | refl => simp [initState]
  | tail _ hstep ih => exact step_preserves_disjoint hstep ih

/-- Witness for the amended C1 theorem at the initial state. -/
theorem c1_scraped_queued_disjoint_witness :
    Reachable initState ∧
    Disjoint initState.scraped_titles initState.queued_titles :=
  ⟨Relation.ReflTransGen.refl,
   c1_scraped_queued_disjoint initState Relation.ReflTransGen.refl⟩

/-! ## Claim C3: the admission gate -/

/-- C3 is refuted on the code: a fetch error sends "Farm" to
`failed_titles` (a terminal state), yet a later portal enumeration admits
"Farm" again — the admission loops check only `scraped_titles` and
`queued_titles` (lines 213-214, 197-198, 235-236), never `failed_titles` —
so a previously failed identifier is re-queued rather than silently
dropped. -/
theorem c3_counterexample :
    Reachable cexState3 ∧
    "Farm" ∈ cexState3.failed_titles ∧
    "Farm" ∈ (get_portal_links cexWiki3 cexState3 "Portal:Agriculture").2 ∧
    "Farm" ∈
      (get_portal_links cexWiki3 cexState3 "Portal:Agriculture").1.queued_titles ∧
    Reachable (get_portal_links cexWiki3 cexState3 "Portal:Agriculture").1 := by
  have h3 : Reachable cexState3 :=
    Relation.ReflTransGen.tail Relation.ReflTransGen.refl
      (Step.scrape cexWiki3 initState "Farm")
  exact ⟨h3, by decide, by decide, by decide,
    Relation.ReflTransGen.tail h3
      (Step.portal cexWiki3 cexState3 "Portal:Agriculture")⟩

/-- C3 (amended): every admission path (portal-link enumeration,
category-member enumeration, outbound-link expansion) admits an identifier
only if it is absent from `scraped_titles` and from `queued_titles` of the
state the expansion started from; membership of `failed_titles` is NOT
checked, so an identifier whose only terminal state is `failed` can be
re-queued by a later enumeration. -/
theorem c3_admission_gate (w : Wiki) (s : ScraperState) (name : String)
    (page : AgriculturePage) (depth : ℕ) :
    (∀ t ∈ (get_portal_links w s name).2,
        t ∉ s.scraped_titles ∧ t ∉ s.queued_titles) ∧
    (∀ t ∈ (get_category_pages w s name none).2,
        t ∉ s.scraped_titles ∧ t ∉ s.queued_titles) ∧
    (∀ t ∈ (explore_links s page depth).2,
        t ∉ s.scraped_titles ∧ t ∉ s.queued_titles) :=
  ⟨fun t ht => ⟨((get_portal_links_spec w s name).2 t ht).1,
               ((get_portal_links_spec w s name).2 t ht).2.1⟩,
   fun t ht => ⟨((get_category_pages_spec w s name none).2 t ht).1,
               ((get_category_pages_spec w s name none).2 t ht).2.1⟩,
   fun t ht => ⟨((explore_links_spec s page depth).2 t ht).1,
               ((explore_links_spec s page depth).2 t ht).2.1⟩⟩

/-- Witness for the amended C3 theorem: the concrete admitted title "Farm"
of the portal enumeration over `cexWiki1` is indeed absent from both sets
of the initial state. -/
theorem c3_admission_gate_witness :
    "Farm" ∈ (get_portal_links cexWiki1 initState "Portal:Agriculture").2 ∧
    ("Farm" ∉ initState.scraped_titles ∧ "Farm" ∉ initState.queued_titles) :=
  ⟨by decide,
   (c3_admission_gate cexWiki1 initState "Portal:Agriculture" cexPage 1).1
     "Farm" (by decide)⟩

/-! ## Claim C10: the statistics counters -/

/-- C10: in every reachable state `agriculture_pages ≤ total_scraped` and
`total_scraped` equals the number of retained pages (each retained page
increments it by one; `agriculture_pages` is incremented only alongside it,
and only when the score strictly exceeds 1.0); moreover the exported
`is_high_agriculture` flag of every row equals the test `score > 2.0`. -/
theorem c10_statistics_invariant :
    (∀ s : ScraperState, Reachable s →
        s.agriculture_pages ≤ s.total_scraped ∧
        s.total_scraped = s.scraped_pages.length) ∧
    (∀ (s : ScraperState) (r : ExportRow), r ∈ export_to_dataframe s →
        r.is_high_agriculture = decide ((2:ℚ) < r.agriculture_score)) := by
  constructor
  · intro s h
    induction h with
    | refl => simp [initState]
    | tail _ hstep ih => exact step_preserves_stats hstep ih
  · intro s r hr
    obtain ⟨page, _, rfl⟩ := List.mem_map.mp hr
    rfl

/-- Witness for C10 at the initial state and at a concrete one-page result
set. -/
theorem c10_statistics_invariant_witness :
    Reachable initState ∧
    (initState.agriculture_pages ≤ initState.total_scraped ∧
      initState.total_scraped = initState.scraped_pages.length) ∧
    ((⟨"Farm", 0, 0, 0, 0, 0, false⟩ : ExportRow) ∈
        export_to_dataframe cexState9) ∧
    (⟨"Farm", 0, 0, 0, 0, 0, false⟩ : ExportRow).is_high_agriculture
      = decide ((2:ℚ) <
          (⟨"Farm", 0, 0, 0, 0, 0, false⟩ : ExportRow).agriculture_score) :=
  ⟨Relation.ReflTransGen.refl,
   c10_statistics_invariant.1 initState Relation.ReflTransGen.refl,
   by decide,
   c10_statistics_invariant.2 cexState9 _ (by decide)⟩

lemma keywords_data_ne_nil : ∀ k ∈ AGRICULTURE_KEYWORDS, k.data ≠ [] := by
  decide

lemma countOcc_nil {p : List Char} (hp : p ≠ []) : countOcc p [] = 0 := by
  unfold countOcc
  rw [if_neg hp]
  rfl

/-- The score of a page with empty body and no categories vanishes as soon
as no keyword occurs in the title. -/
lemma score_empty_content (title : String)
    (h : AGRICULTURE_KEYWORDS.countP
      (fun k => containsSub k.data (pyLower title).data) = 0) :
    calculate_agriculture_score title "" [] = 0 := by
  rw [score_eq_scoreSpec]
  unfold scoreSpec
  rw [h]
  have h2 : (AGRICULTURE_KEYWORDS.map
      (fun k => (countOcc k.data (pyLower "").data : ℚ))).sum = 0 := by
    apply List.sum_eq_zero
    intro x hx
    obtain ⟨k, hk, rfl⟩ := List.mem_map.mp hx
    have hz : countOcc k.data (pyLower "").data = 0 := by
      show countOcc k.data [] = 0
      exact countOcc_nil (keywords_data_ne_nil k hk)
    rw [hz]
    norm_num
  rw [h2]
  norm_num

/-! ## Claim C2: the acceptance policy -/

/-- C2 is refuted in its second half: "Tree" is queued by category
enumeration (a reachable state), then fetched successfully with score 0
(below the 0.5 threshold, and "agriculture" is not part of the title).  The
source returns at line 130 WITHOUT touching any registry set, so the
rejected identifier is neither inserted into `scraped_titles` nor removed
from `queued_titles` — it is not "marked scraped". -/
theorem c2_counterexample :
    Reachable cexState2 ∧
    "Tree" ∈ cexState2.queued_titles ∧
    scrape_page_comprehensive cexWiki2 cexState2 "Tree" = (cexState2, none) ∧
    "Tree" ∉
      (scrape_page_comprehensive cexWiki2 cexState2 "Tree").1.scraped_titles ∧
    "Tree" ∈
      (scrape_page_comprehensive cexWiki2 cexState2 "Tree").1.queued_titles := by
  have hsc : calculate_agriculture_score "Tree" "" [] = 0 :=
    score_empty_content "Tree" (by decide)
  have h2 : scrape_page_comprehensive cexWiki2 cexState2 "Tree"
      = (cexState2, none) := by
    unfold scrape_page_comprehensive
    rw [if_neg (by decide)]
    have hfe : cexWiki2.fetch "Tree" = .success ⟨"", [], [], []⟩ := by decide
    rw [hfe]
    dsimp only
    rw [if_pos ⟨by rw [hsc]; norm_num, by decide⟩]
  refine ⟨?_, by decide, h2, ?_, ?_⟩
  · exact Relation.ReflTransGen.tail Relation.ReflTransGen.refl
      (Step.category cexWiki2 initState "Cat")
  · rw [h2]
    decide
  · rw [h2]
    decide

/-- C2 (amended): for a successfully fetched, existing page not yet
scraped, a page record is returned iff the score is at least 1/2 or the
lower-cased identifier contains "agriculture"; in the rejected case the
state is returned UNCHANGED (the identifier is not marked scraped and stays
in the queue, and nothing is appended to the result set); in the accepted
case the identifier moves from `queued_titles` into `scraped_titles`. -/
theorem c2_acceptance_policy (w : Wiki) (s : ScraperState) (t : String)
    (info : PageInfo) (hf : w.fetch t = .success info)
    (hns : t ∉ s.scraped_titles) :
    ((scrape_page_comprehensive w s t).2.isSome = true ↔
      (1/2 ≤ calculate_agriculture_score t info.text info.categories ∨
       containsSub "agriculture".data (pyLower t).data = true)) ∧
    ((calculate_agriculture_score t info.text info.categories < 1/2 ∧
        containsSub "agriculture".data (pyLower t).data = false) →
      scrape_page_comprehensive w s t = (s, none)) ∧
    (∀ p, (scrape_page_comprehensive w s t).2 = some p →
      (scrape_page_comprehensive w s t).1.scraped_titles
          = insert t s.scraped_titles ∧
      (scrape_page_comprehensive w s t).1.queued_titles
          = s.queued_titles.erase t) := by
  unfold scrape_page_comprehensive
  rw [if_neg hns, hf]
  dsimp only
  by_cases hrej :
      calculate_agriculture_score t info.text info.categories < 1/2 ∧
      containsSub "agriculture".data (pyLower t).data = false
  · rw [if_pos hrej]
    refine ⟨?_, fun _ => rfl, by simp⟩
    constructor
    · intro h; simp at h
    · rintro (hge | hct)
      · exact absurd hge (not_le.mpr hrej.1)
      · simp [hrej.2] at hct
  · rw [if_neg hrej]
    push_neg at hrej
    refine ⟨?_, fun hcon => absurd hcon.1 ?_, fun p _ => ⟨rfl, rfl⟩⟩
    · simp only [Option.isSome_some, true_iff]
      by_cases hlt :
          calculate_agriculture_score t info.text info.categories < 1/2
      · right
        have := hrej hlt
        simpa using this
      · left; exact not_lt.mp hlt
    · intro hlt
      have hct := hrej hlt
      simp only [Bool.not_eq_false] at hct
      rw [hcon.2] at hct
      exact Bool.false_ne_true hct

/-- Witness for the amended C2 theorem at the concrete rejected page. -/
theorem c2_acceptance_policy_witness :
    cexWiki2.fetch "Tree" = .success ⟨"", [], [], []⟩ ∧
    "Tree" ∉ cexState2.scraped_titles ∧
    ((scrape_page_comprehensive cexWiki2 cexState2 "Tree").2.isSome = true ↔
      (1/2 ≤ calculate_agriculture_score "Tree"
          (PageInfo.mk "" [] [] []).text (PageInfo.mk "" [] [] []).categories ∨
       containsSub "agriculture".data (pyLower "Tree").data = true)) :=
  ⟨by decide, by decide,
   (c2_acceptance_policy cexWiki2 cexState2 "Tree" ⟨"", [], [], []⟩
     (by decide) (by decide)).1⟩

/-! ## Claim C5: the global page cap -/

lemma explore_fold_cap (l : List String) :
    ∀ (st0 : ScraperState) (out0 : List String),
      st0.scraped_titles.card + st0.queued_titles.card ≤ max_total_pages →
      ((l.foldl
          (fun acc link_title =>
            if is_agriculture_related link_title = true ∧
                link_title ∉ acc.1.scraped_titles ∧
                link_title ∉ acc.1.queued_titles ∧
                acc.1.scraped_titles.card + acc.1.queued_titles.card <
                  max_total_pages then
              ({ acc.1 with
                  queued_titles := insert link_title acc.1.queued_titles },
               acc.2 ++ [link_title])
            else acc)
          (st0, out0)).1.scraped_titles.card +
        (l.foldl
          (fun acc link_title =>
            if is_agriculture_related link_title = true ∧
                link_title ∉ acc.1.scraped_titles ∧
                link_title ∉ acc.1.queued_titles ∧
                acc.1.scraped_titles.card + acc.1.queued_titles.card <
                  max_total_pages then
              ({ acc.1 with
                  queued_titles := insert link_title acc.1.queued_titles },
               acc.2 ++ [link_title])
            else acc)
          (st0, out0)).1.queued_titles.card ≤ max_total_pages) := by
  induction l with
  | nil => intro st0 out0 h; exact h
  | cons x xs ih =>
    intro st0 out0 h
    rw [List.foldl_cons]
    by_cases hc : is_agriculture_related x = true ∧ x ∉ st0.scraped_titles ∧
        x ∉ st0.queued_titles ∧
        st0.scraped_titles.card + st0.queued_titles.card < max_total_pages
    · rw [if_pos hc]
      apply ih
      have hcard : (insert x st0.queued_titles).card ≤
          st0.queued_titles.card + 1 := Finset.card_insert_le _ _
      dsimp only
      omega
    · rw [if_neg hc]
      exact ih st0 out0 h

/-- C5 (amended): only the outbound-link expansion checks a cap, and the
quantity it checks is `len(scraped) + len(queued)` (the failed set does not
participate): if that sum is within `max_total_pages` before the expansion
it stays within it, and any admission by `explore_links` implies the sum
was strictly below the cap.  (The portal and category enumerations perform
no cap check at all — see the counterexample.) -/
theorem c5_cap_checked_only_by_explore (s : ScraperState)
    (page : AgriculturePage) (d : ℕ)
    (hcap : s.scraped_titles.card + s.queued_titles.card ≤ max_total_pages) :
    ((explore_links s page d).1.scraped_titles.card +
      (explore_links s page d).1.queued_titles.card ≤ max_total_pages) ∧
    (∀ t ∈ (explore_links s page d).2,
      s.scraped_titles.card + s.queued_titles.card < max_total_pages) := by
  constructor
  · unfold explore_links
    by_cases hd : max_depth ≤ d
    · rw [if_pos hd]; exact hcap
    · rw [if_neg hd]
      exact explore_fold_cap page.links s [] hcap
  · intro t ht
    exact ((explore_links_spec s page d).2 t ht).2.2.2.2

/-- Witness for the amended C5 theorem at the initial state. -/
theorem c5_cap_checked_only_by_explore_witness :
    (initState.scraped_titles.card + initState.queued_titles.card ≤
      max_total_pages) ∧
    ((explore_links initState cexPage 1).1.scraped_titles.card +
      (explore_links initState cexPage 1).1.queued_titles.card ≤
        max_total_pages) :=
  ⟨by decide,
   (c5_cap_checked_only_by_explore initState cexPage 1 (by decide)).1⟩

lemma unaryTitle_injective : Function.Injective unaryTitle := by
  intro i j h
  have hl : (unaryTitle i).data.length = (unaryTitle j).data.length := by
    rw [h]
  simpa [unaryTitle] using hl

lemma selfWiki_cat_step (s : ScraperState) (t : String)
    (h1 : t ∉ s.scraped_titles) (h2 : t ∉ s.queued_titles) :
    (get_category_pages selfWiki s t none).1
      = { s with queued_titles := insert t s.queued_titles } := by
  unfold get_category_pages selfWiki
  dsimp only
  rw [List.take_of_length_le (by simp [max_pages_per_category])]
  rw [List.foldl_cons, if_pos ⟨h1, h2⟩, List.foldl_nil]

lemma qState_reachable : ∀ m : ℕ, Reachable (qState m) := by
  intro m
  induction m with
  | zero =>
    have h0 : qState 0 = initState := by
      simp [qState, initState]
    rw [h0]
    exact Relation.ReflTransGen.refl
  | succ m ih =>
    have hfresh1 : unaryTitle m ∉ (qState m).scraped_titles := by
      simp [qState, initState]
    have hfresh2 : unaryTitle m ∉ (qState m).queued_titles := by
      simp only [qState, Finset.mem_image, Finset.mem_range]
      rintro ⟨j, hj, hje⟩
      exact absurd (unaryTitle_injective hje) (Nat.ne_of_lt hj)
    have hstep := Step.category selfWiki (qState m) (unaryTitle m)
    rw [selfWiki_cat_step (qState m) (unaryTitle m) hfresh1 hfresh2] at hstep
    have hq : ({ qState m with
        queued_titles := insert (unaryTitle m) (qState m).queued_titles })
        = qState (m + 1) := by
      simp [qState, Finset.range_succ, Finset.image_insert]
    rw [hq] at hstep
    exact Relation.ReflTransGen.tail ih hstep

/-- C5 is refuted on the code: the category enumeration performs no cap
check whatsoever, so 10001 successive category-member admissions produce a
reachable state whose seen-set (scraped ∪ queued ∪ failed) has 10001 >
10000 = `max_total_pages` elements; a subsequent completed batch (a scrape
of the queued empty-string title, which is rejected by score and leaves the
state unchanged) keeps the union above the cap. -/
theorem c5_counterexample :
    Reachable (qState 10001) ∧
    scrapeStep selfWiki (qState 10001) (unaryTitle 0) = qState 10001 ∧
    max_total_pages < (seenSet (qState 10001)).card := by
  refine ⟨qState_reachable 10001, ?_, ?_⟩
  · have hsc : calculate_agriculture_score (unaryTitle 0) "" [] = 0 := by
      have h0 : unaryTitle 0 = "" := rfl
      rw [h0]
      exact score_empty_content "" (by decide)
    have h2 : scrape_page_comprehensive selfWiki (qState 10001) (unaryTitle 0)
        = (qState 10001, none) := by
      unfold scrape_page_comprehensive selfWiki
      rw [if_neg (by simp [qState, initState])]
      dsimp only
      rw [if_pos ⟨by rw [hsc]; norm_num, by decide⟩]
    unfold scrapeStep
    rw [h2]
    simp
  · have hcard : (seenSet (qState 10001)).card = 10001 := by
      unfold seenSet
      simp only [qState, initState]
      rw [Finset.empty_union, Finset.union_empty,
        Finset.card_image_of_injective _ unaryTitle_injective,
        Finset.card_range]
    rw [hcard]
    norm_num [max_total_pages]

/-! ## Claim C9: save_progress never raising -/

/-- C9 is refuted on the code: the two `os.makedirs` calls (lines 268-269)
sit BEFORE the `try` block, so when directory creation fails the exception
propagates to the caller of `save_progress` — with a non-empty result list
and a failing first `makedirs`, the outcome is a raised exception (and
nothing was written). -/
theorem c9_counterexample :
    cexState9.scraped_pages ≠ [] ∧
    save_progress fsMkdirFails cexState9 [] = (SaveOutcome.raised, []) :=
  ⟨by decide, by decide⟩

/-- C9 (amended): provided the two directory-creation calls succeed,
`save_progress` never lets an exception escape: serialisation and write
failures inside the `try` block are caught, logged, and reported by the
`False` return value (`caught`); and on every invocation the durable store
is only ever appended to, so previously written checkpoints survive. -/
theorem c9_save_never_raises (fs : FSOracle) (s : ScraperState)
    (store : List Artifact)
    (h1 : fs.mkdirProcessedFails = false) (h2 : fs.mkdirRawFails = false) :
    (save_progress fs s store).1 ≠ SaveOutcome.raised ∧
    (s.scraped_pages.isEmpty = false →
      (fs.csvWriteFails = true ∨ fs.jsonWriteFails = true) →
      (save_progress fs s store).1 = SaveOutcome.caught) ∧
    (∃ suffix, (save_progress fs s store).2 = store ++ suffix) := by
  unfold save_progress
  rcases fs with ⟨mp, mr, cf, jf⟩
  dsimp only at h1 h2 ⊢
  subst h1; subst h2
  by_cases he : s.scraped_pages.isEmpty = true
  · rw [if_pos he]
    exact ⟨by simp, fun hne => by rw [hne] at he; exact absurd he (by simp),
      ⟨[], by simp⟩⟩
  · rw [if_neg he]
    simp only [Bool.false_eq_true, if_false]
    cases cf
    · cases jf
      · exact ⟨by simp, fun _ h => by simp at h, ⟨_, rfl⟩⟩
      · exact ⟨by simp, fun _ _ => rfl, ⟨_, rfl⟩⟩
    · exact ⟨by simp, fun _ _ => rfl, ⟨[], by simp⟩⟩

/-- Witness for the amended C9 theorem: a failing CSV write on a one-page
result set is caught rather than raised. -/
theorem c9_save_never_raises_witness :
    fsCsvFails.mkdirProcessedFails = false ∧
    fsCsvFails.mkdirRawFails = false ∧
    (save_progress fsCsvFails cexState9 []).1 ≠ SaveOutcome.raised :=
  ⟨rfl, rfl, (c9_save_never_raises fsCsvFails cexState9 [] rfl rfl).1⟩

/-! ## Claim C4: the depth bound of a full run

The driver evaluates `range(0, len(all_pages_to_scrape), 100)` once, so the
loop index sequence is fixed by the initial (deduplicated) seed-expansion
list of length `N`.  Titles appended by link expansion sit at positions
`≥ N` and are only ever reached by the final slice, whose start index is
the last multiple of 100 below `N`; every earlier slice lies entirely
inside the seed region.  Hence every fetched title is within two link hops
of a seed and every admitted title within three — which is exactly
`max_depth`. -/

lemma near_mono {w : Wiki} {portals cats : List String} :
    ∀ {d d' : ℕ} {t}, Near w portals cats d t → d ≤ d' →
      Near w portals cats d' t := by
  intro d d' t h hd
  obtain ⟨k, rfl⟩ := Nat.exists_eq_add_of_le hd
  clear hd
  induction k with
  | zero => exact h
  | succ k ih => exact Near.succ ih

lemma take_subset_take {α : Type} :
    ∀ (l : List α) (m n : ℕ), m ≤ n → l.take m ⊆ l.take n := by
  intro l
  induction l with
  | nil => simp
  | cons x xs ih =>
    intro m n hmn
    cases m with
    | zero => simp
    | succ m =>
      cases n with
      | zero => omega
      | succ n =>
        simp only [List.take_succ_cons]
        exact List.cons_subset_cons _ (ih m n (Nat.le_of_succ_le_succ hmn))

lemma take_append_left_of_le {α : Type} {l l' : List α} {n : ℕ}
    (h : n ≤ l.length) : (l ++ l').take n = l.take n := by
  rw [List.take_append_eq_append_take, Nat.sub_eq_zero_of_le h,
    List.take_zero, List.append_nil]

lemma mem_take_of_slice {α : Type} {l : List α} {t : α} {i k n : ℕ}
    (ht : t ∈ (l.drop i).take k) (hik : i + k ≤ n) : t ∈ l.take n := by
  rw [List.take_drop] at ht
  have h1 : t ∈ l.take (i + k) := List.drop_subset _ _ ht
  exact take_subset_take l (i + k) n hik h1

lemma pyRange_pairwise (n : ℕ) :
    (pyRange n).Pairwise (fun a b => a + 100 ≤ b) := by
  unfold pyRange
  exact (List.pairwise_lt_range _).map _ (fun a b h => by omega)

lemma pyRange_lt (n : ℕ) : ∀ i ∈ pyRange n, i < n := by
  intro i hi
  unfold pyRange at hi
  obtain ⟨k, hk, rfl⟩ := List.mem_map.mp hi
  rw [List.mem_range] at hk
  have h1 : (k + 1) * 100 ≤ ((n + 99) / 100) * 100 :=
    Nat.mul_le_mul_right _ hk
  have h2 : ((n + 99) / 100) * 100 ≤ n + 99 := Nat.div_mul_le_self _ _
  omega

lemma scrape_page_links (w : Wiki) (s : ScraperState) (t : String) :
    ∀ p, (scrape_page_comprehensive w s t).2 = some p →
      p.links ⊆ pageLinks w t := by
  intro p hp
  rcases scrape_cases w s t with h | h | h | ⟨q, _, _, _, hl, h⟩ <;>
      rw [h] at hp
  · exact absurd hp (by simp)
  · exact absurd hp (by simp)
  · exact absurd hp (by simp)
  · have hqp : q = p := by simpa using hp
    subst hqp
    rw [hl]
    exact List.take_subset _ _

lemma scrape_fold_spec (w : Wiki) (l : List String) :
    ∀ (s : ScraperState) (ps : List AgriculturePage),
      (∀ x ∈ seenSet (l.foldl
          (fun acc title =>
            let r := scrape_page_comprehensive w acc.1 title
            (r.1, acc.2 ++ r.2.toList))
          (s, ps)).1,
        x ∈ seenSet s ∨ x ∈ l) ∧
      (∀ p ∈ (l.foldl
          (fun acc title =>
            let r := scrape_page_comprehensive w acc.1 title
            (r.1, acc.2 ++ r.2.toList))
          (s, ps)).2,
        p ∈ ps ∨ ∃ t ∈ l, p.links ⊆ pageLinks w t) := by
  induction l with
  | nil => intro s ps; exact ⟨fun x hx => Or.inl hx, fun p hp => Or.inl hp⟩
  | cons x xs ih =>
    intro s ps
    rw [List.foldl_cons]
    have hseen : seenSet (scrape_page_comprehensive w s x).1 ⊆
        insert x (seenSet s) := scrapeStep_seen w s x
    obtain ⟨ih1, ih2⟩ := ih (scrape_page_comprehensive w s x).1
      (ps ++ (scrape_page_comprehensive w s x).2.toList)
    constructor
    · intro y hy
      rcases ih1 y hy with hy' | hy'
      · rcases Finset.mem_insert.mp (hseen hy') with rfl | hy''
        · exact Or.inr (List.mem_cons_self _ _)
        · exact Or.inl hy''
      · exact Or.inr (List.mem_cons_of_mem _ hy')
    · intro p hp
      rcases ih2 p hp with hp' | ⟨t, ht, hlinks⟩
      · rcases List.mem_append.mp hp' with hp'' | hp''
        · exact Or.inl hp''
        · refine Or.inr ⟨x, List.mem_cons_self _ _, ?_⟩
          have hsome : (scrape_page_comprehensive w s x).2 = some p :=
            Option.mem_def.mp (Option.mem_toList.mp hp'')
          exact scrape_page_links w s x p hsome
      · exact Or.inr ⟨t, List.mem_cons_of_mem _ ht, hlinks⟩

lemma scrape_batch_spec (w : Wiki) (order : ℕ → List String → List String)
    (hord : ∀ n l t, t ∈ order n l → t ∈ l)
    (i : ℕ) (s : ScraperState) (titles : List String) (n : ℕ) :
    (∀ x ∈ seenSet (scrape_batch w order i s titles n).1,
        x ∈ seenSet s ∨ x ∈ titles) ∧
    (∀ p ∈ (scrape_batch w order i s titles n).2,
        ∃ t ∈ titles, p.links ⊆ pageLinks w t) := by
  unfold scrape_batch
  obtain ⟨h1, h2⟩ := scrape_fold_spec w (order i (titles.take n)) s []
  constructor
  · intro x hx
    rcases h1 x hx with hx' | hx'
    · exact Or.inl hx'
    · exact Or.inr (List.take_subset _ _ (hord _ _ _ hx'))
  · intro p hp
    rcases h2 p hp with hp' | ⟨t, ht, hlinks⟩
    · simp at hp'
    · exact ⟨t, List.take_subset _ _ (hord _ _ _ ht), hlinks⟩

lemma explore_seen (s : ScraperState) (p : AgriculturePage) (d : ℕ) :
    ∀ x ∈ seenSet (explore_links s p d).1,
      x ∈ seenSet s ∨ x ∈ (explore_links s p d).2 := by
  intro x hx
  rw [(explore_links_spec s p d).1] at hx
  simp only [seenSet, Finset.mem_union, List.mem_toFinset] at hx ⊢
  tauto

lemma expand_fold_spec (pages : List AgriculturePage) :
    ∀ (s : ScraperState) (all : List String),
      (∀ x ∈ seenSet (pages.foldl
          (fun acc page =>
            if acc.1.scraped_titles.card < max_total_pages then
              let r := explore_links acc.1 page 1
              (r.1, acc.2 ++ r.2)
            else acc)
          (s, all)).1,
        x ∈ seenSet s ∨ ∃ p ∈ pages, x ∈ p.links) ∧
      (∃ app : List String,
        (pages.foldl
          (fun acc page =>
            if acc.1.scraped_titles.card < max_total_pages then
              let r := explore_links acc.1 page 1
              (r.1, acc.2 ++ r.2)
            else acc)
          (s, all)).2 = all ++ app ∧
        ∀ x ∈ app, ∃ p ∈ pages, x ∈ p.links) := by
  induction pages with
  | nil =>
    intro s all
    exact ⟨fun x hx => Or.inl hx, ⟨[], by simp, by simp⟩⟩
  | cons p ps ih =>
    intro s all
    rw [List.foldl_cons]
    by_cases hcap : s.scraped_titles.card < max_total_pages
    · rw [if_pos hcap]
      obtain ⟨ih1, app', happ', hmem'⟩ :=
        ih (explore_links s p 1).1 (all ++ (explore_links s p 1).2)
      constructor
      · intro x hx
        rcases ih1 x hx with hx' | ⟨q, hq, hql⟩
        · rcases explore_seen s p 1 x hx' with hx'' | hx''
          · exact Or.inl hx''
          · refine Or.inr ⟨p, List.mem_cons_self _ _, ?_⟩
            exact ((explore_links_spec s p 1).2 x hx'').2.2.1
        · exact Or.inr ⟨q, List.mem_cons_of_mem _ hq, hql⟩
      · refine ⟨(explore_links s p 1).2 ++ app', ?_, ?_⟩
        · rw [happ', List.append_assoc]
        · intro x hx
          rcases List.mem_append.mp hx with hx' | hx'
          · exact ⟨p, List.mem_cons_self _ _,
              ((explore_links_spec s p 1).2 x hx').2.2.1⟩
          · obtain ⟨q, hq, hql⟩ := hmem' x hx'
            exact ⟨q, List.mem_cons_of_mem _ hq, hql⟩
    · rw [if_neg hcap]
      obtain ⟨ih1, app', happ', hmem'⟩ := ih s all
      refine ⟨?_, app', happ', ?_⟩
      · intro x hx
        rcases ih1 x hx with hx' | ⟨q, hq, hql⟩
        · exact Or.inl hx'
        · exact Or.inr ⟨q, List.mem_cons_of_mem _ hq, hql⟩
      · intro x hx
        obtain ⟨q, hq, hql⟩ := hmem' x hx
        exact ⟨q, List.mem_cons_of_mem _ hq, hql⟩

lemma expandBatch_spec (pages : List AgriculturePage) (s : ScraperState)
    (all : List String) :
    (∀ x ∈ seenSet (expandBatch pages s all).1,
        x ∈ seenSet s ∨ ∃ p ∈ pages, x ∈ p.links) ∧
    (∃ app : List String, (expandBatch pages s all).2 = all ++ app ∧
        ∀ x ∈ app, ∃ p ∈ pages, x ∈ p.links) := by
  unfold expandBatch
  exact expand_fold_spec pages s all

lemma runLoop_near (w : Wiki) (portals cats : List String)
    (order : ℕ → List String → List String)
    (hord : ∀ n l t, t ∈ order n l → t ∈ l) (N : ℕ) :
    ∀ (iList : List ℕ) (all : List String) (s : ScraperState)
      (dispatched : Finset String),
      iList.Pairwise (fun a b => a + 100 ≤ b) →
      (∀ i ∈ iList, i < N) →
      N ≤ all.length →
      (∀ t ∈ all.take N, Near w portals cats 1 t) →
      (∀ t ∈ all, Near w portals cats 2 t) →
      (∀ x ∈ seenSet s, Near w portals cats 3 x) →
      (∀ x ∈ dispatched, Near w portals cats 3 x) →
      (∀ x ∈ seenSet (runLoop w order iList all s dispatched).1,
          Near w portals cats 3 x) ∧
      (∀ x ∈ (runLoop w order iList all s dispatched).2,
          Near w portals cats 3 x) := by
  intro iList
  induction iList with
  | nil =>
    intro all s disp _ _ _ _ _ hs hd
    exact ⟨hs, hd⟩
  | cons i rest ih =>
    intro all s disp hpw hlt hN h1 h2 hs hd
    rw [runLoop]
    by_cases hcap : max_total_pages ≤ s.scraped_titles.card
    · rw [if_pos hcap]
      exact ⟨hs, hd⟩
    · rw [if_neg hcap]
      dsimp only
      set B := (all.drop i).take 100 with hB
      set SB := scrape_batch w order i s B 100 with hSB
      set S1 := { SB.1 with
        scraped_pages := SB.1.scraped_pages ++ SB.2 } with hS1
      set EX := expandBatch SB.2 S1 all with hEX
      have hbatch2 : ∀ t ∈ B, Near w portals cats 2 t := fun t ht =>
        h2 t (List.drop_subset _ _ (List.take_subset _ _ ht))
      obtain ⟨hsb1, hsb2⟩ := scrape_batch_spec w order hord i s B 100
      have hseen1 : ∀ x ∈ seenSet SB.1, Near w portals cats 3 x := by
        intro x hx
        rcases hsb1 x hx with hx' | hx'
        · exact hs x hx'
        · exact near_mono (hbatch2 x hx') (by omega)
      have hlinks3 : ∀ p ∈ SB.2, ∀ x ∈ p.links,
          Near w portals cats 3 x := by
        intro p hp x hx
        obtain ⟨t, ht, hsub⟩ := hsb2 p hp
        exact Near.link (hbatch2 t ht) (hsub hx)
      obtain ⟨hex1, app, happ, happmem⟩ := expandBatch_spec SB.2 S1 all
      have hseenEX : ∀ x ∈ seenSet EX.1, Near w portals cats 3 x := by
        intro x hx
        rcases hex1 x hx with hx' | ⟨p, hp, hpl⟩
        · exact hseen1 x hx'
        · exact hlinks3 p hp x hpl
      have hdisp' : ∀ x ∈ disp ∪ B.toFinset, Near w portals cats 3 x := by
        intro x hx
        rcases Finset.mem_union.mp hx with hx' | hx'
        · exact hd x hx'
        · exact near_mono (hbatch2 x (List.mem_toFinset.mp hx')) (by omega)
      by_cases hiN : i + 100 ≤ N
      · have hbatch1 : ∀ t ∈ B, Near w portals cats 1 t := fun t ht =>
          h1 t (mem_take_of_slice ht hiN)
        have hlinks2 : ∀ p ∈ SB.2, ∀ x ∈ p.links,
            Near w portals cats 2 x := by
          intro p hp x hx
          obtain ⟨t, ht, hsub⟩ := hsb2 p hp
          exact Near.link (hbatch1 t ht) (hsub hx)
        have h1' : ∀ t ∈ (all ++ app).take N, Near w portals cats 1 t := by
          rw [take_append_left_of_le hN]
          exact h1
        have h2' : ∀ t ∈ all ++ app, Near w portals cats 2 t := by
          intro t ht
          rcases List.mem_append.mp ht with ht' | ht'
          · exact h2 t ht'
          · obtain ⟨p, hp, hpl⟩ := happmem t ht'
            exact hlinks2 p hp t hpl
        have hN' : N ≤ (all ++ app).length := by
          rw [List.length_append]
          omega
        rw [happ]
        exact ih (all ++ app) EX.1 (disp ∪ B.toFinset)
          (List.pairwise_cons.mp hpw).2
          (fun j hj => hlt j (List.mem_cons_of_mem _ hj))
          hN' h1' h2' hseenEX hdisp'
      · have hrest : rest = [] := by
          cases rest with
          | nil => rfl
          | cons j rest' =>
            exfalso
            have hj := (List.pairwise_cons.mp hpw).1 j (List.mem_cons_self _ _)
            have hjN := hlt j (List.mem_cons_of_mem _ (List.mem_cons_self _ _))
            omega
        subst hrest
        rw [runLoop]
        exact ⟨hseenEX, hdisp'⟩

/-- No registry operation ever removes an identifier from the seen-union
(scraped ∪ queued ∪ failed): erasures from the queue are always paired with
an insertion of the same identifier into a terminal set.  Hence an
identifier claimed at ANY point of a run is still in the final union. -/
lemma step_seen_mono {a b : ScraperState} (hstep : Step a b) :
    seenSet a ⊆ seenSet b := by
  cases hstep with
  | portal w s name =>
    rw [(get_portal_links_spec w a name).1]
    intro x hx
    simp only [seenSet, Finset.mem_union] at hx ⊢
    tauto
  | category w s name =>
    rw [(get_category_pages_spec w a name none).1]
    intro x hx
    simp only [seenSet, Finset.mem_union] at hx ⊢
    tauto
  | explore s page depth =>
    rw [(explore_links_spec a page depth).1]
    intro x hx
    simp only [seenSet, Finset.mem_union] at hx ⊢
    tauto
  | scrape w s title =>
    rcases scrape_cases w a title with h | h | h | ⟨p, _, _, _, _, h⟩ <;>
        unfold scrapeStep <;> rw [h] <;> intro x hx <;>
        simp only [seenSet, Finset.mem_union, Finset.mem_insert,
          Finset.mem_erase] at hx ⊢ <;>
        by_cases hxt : x = title <;> tauto

lemma seen_queued_union (s : ScraperState) (out : List String) :
    ∀ x ∈ seenSet { s with queued_titles := s.queued_titles ∪ out.toFinset },
      x ∈ seenSet s ∨ x ∈ out := by
  intro x hx
  simp only [seenSet, Finset.mem_union, List.mem_toFinset] at hx ⊢
  tauto

lemma portal_enum_near (w : Wiki) (portals cats : List String) :
    ∀ (ps : List String), (∀ p ∈ ps, p ∈ portals) →
      ∀ (s0 : ScraperState) (out0 : List String),
      (∀ x ∈ seenSet s0, Near w portals cats 1 x) →
      (∀ x ∈ out0, Near w portals cats 1 x) →
      (∀ x ∈ seenSet (ps.foldl
          (fun acc portal =>
            let r := get_portal_links w acc.1 portal
            (r.1, acc.2 ++ r.2)) (s0, out0)).1,
        Near w portals cats 1 x) ∧
      (∀ x ∈ (ps.foldl
          (fun acc portal =>
            let r := get_portal_links w acc.1 portal
            (r.1, acc.2 ++ r.2)) (s0, out0)).2,
        Near w portals cats 1 x) := by
  intro ps
  induction ps with
  | nil => intro _ s0 out0 hs hout; exact ⟨hs, hout⟩
  | cons p ps ih =>
    intro hmem s0 out0 hs hout
    rw [List.foldl_cons]
    dsimp only
    apply ih (fun q hq => hmem q (List.mem_cons_of_mem _ hq))
    · intro x hx
      rw [(get_portal_links_spec w s0 p).1] at hx
      rcases seen_queued_union s0 (get_portal_links w s0 p).2 x hx
          with hx' | hx'
      · exact hs x hx'
      · exact Near.portalLink (hmem p (List.mem_cons_self _ _))
          ((get_portal_links_spec w s0 p).2 x hx').2.2.1
    · intro x hx
      rcases List.mem_append.mp hx with hx' | hx'
      · exact hout x hx'
      · exact Near.portalLink (hmem p (List.mem_cons_self _ _))
          ((get_portal_links_spec w s0 p).2 x hx').2.2.1

lemma category_enum_near (w : Wiki) (portals cats : List String) :
    ∀ (cs : List String), (∀ c ∈ cs, c ∈ cats) →
      ∀ (s0 : ScraperState) (out0 : List String),
      (∀ x ∈ seenSet s0, Near w portals cats 1 x) →
      (∀ x ∈ out0, Near w portals cats 1 x) →
      (∀ x ∈ seenSet (cs.foldl
          (fun acc category =>
            let r := get_category_pages w acc.1 category none
            (r.1, acc.2 ++ r.2)) (s0, out0)).1,
        Near w portals cats 1 x) ∧
      (∀ x ∈ (cs.foldl
          (fun acc category =>
            let r := get_category_pages w acc.1 category none
            (r.1, acc.2 ++ r.2)) (s0, out0)).2,
        Near w portals cats 1 x) := by
  intro cs
  induction cs with
  | nil => intro _ s0 out0 hs hout; exact ⟨hs, hout⟩
  | cons c cs ih =>
    intro hmem s0 out0 hs hout
    rw [List.foldl_cons]
    dsimp only
    apply ih (fun q hq => hmem q (List.mem_cons_of_mem _ hq))
    · intro x hx
      rw [(get_category_pages_spec w s0 c none).1] at hx
      rcases seen_queued_union s0 (get_category_pages w s0 c none).2 x hx
          with hx' | hx'
      · exact hs x hx'
      · exact Near.catMember (hmem c (List.mem_cons_self _ _))
          ((get_category_pages_spec w s0 c none).2 x hx').2.2
    · intro x hx
      rcases List.mem_append.mp hx with hx' | hx'
      · exact hout x hx'
      · exact Near.catMember (hmem c (List.mem_cons_self _ _))
          ((get_category_pages_spec w s0 c none).2 x hx').2.2

/-- C4: for every run of `run_comprehensive_scraping` — over any fetch
oracle, any `list(set(...))` enumeration order and any worker-pool
completion order — every identifier ever entered into the registry (scraped
∪ queued ∪ failed) and every identifier ever dispatched to the worker pool
lies within `max_depth` link hops of some configured portal or category
seed; and `explore_links` performs no expansion at all once its depth
argument reaches `max_depth` (so with max_depth = 1 a chain seed→A→B→C has
B and C never enqueued from A, while A can still be fetched from the seed
enumeration); finally, no registry operation ever removes an identifier
from the seen-union, so an identifier claimed at any intermediate point of
the run is still covered by the final-state bound. -/
theorem c4_depth_bound (w : Wiki) (portals cats : List String)
    (dedup : List String → List String)
    (order : ℕ → List String → List String)
    (hded : ∀ l t, t ∈ dedup l → t ∈ l)
    (hord : ∀ n l t, t ∈ order n l → t ∈ l) :
    (∀ x ∈ seenSet (run_comprehensive_scraping w portals cats dedup order).1,
        Near w portals cats max_depth x) ∧
    (∀ x ∈ (run_comprehensive_scraping w portals cats dedup order).2,
        Near w portals cats max_depth x) ∧
    (∀ (s : ScraperState) (page : AgriculturePage) (d : ℕ),
        max_depth ≤ d → explore_links s page d = (s, [])) ∧
    (∀ (a b : ScraperState), Step a b → seenSet a ⊆ seenSet b) := by
  have hguard : ∀ (s : ScraperState) (page : AgriculturePage) (d : ℕ),
      max_depth ≤ d → explore_links s page d = (s, []) := by
    intro s page d hd
    unfold explore_links
    rw [if_pos hd]
  have hmain :
      (∀ x ∈ seenSet
          (run_comprehensive_scraping w portals cats dedup order).1,
        Near w portals cats 3 x) ∧
      (∀ x ∈ (run_comprehensive_scraping w portals cats dedup order).2,
        Near w portals cats 3 x) := by
    unfold run_comprehensive_scraping
    dsimp only
    have hinit : ∀ x ∈ seenSet initState, Near w portals cats 1 x := by
      intro x hx
      simp [seenSet, initState] at hx
    obtain ⟨hp1, hp2⟩ := portal_enum_near w portals cats portals
      (fun p hp => hp) initState [] hinit (by intro x hx; simp at hx)
    obtain ⟨hc1, hc2⟩ := category_enum_near w portals cats cats
      (fun c hc => hc) _ _ hp1 hp2
    refine runLoop_near w portals cats order hord _ _ _ _ _
      (pyRange_pairwise _) (pyRange_lt _) (le_refl _) ?_ ?_ ?_
      (by intro x hx; simp at hx)
    · intro t ht
      rw [List.take_length] at ht
      exact hc2 t (hded _ t ht)
    · intro t ht
      exact near_mono (hc2 t (hded _ t ht)) (by omega)
    · intro x hx
      exact near_mono (hc1 x hx) (by omega)
  exact ⟨hmain.1, hmain.2, hguard, fun a b hstep => step_seen_mono hstep⟩

/-- Witness for C4 at a concrete trivial run (empty oracle, identity dedup
and completion order). -/
theorem c4_depth_bound_witness :
    (∀ (l : List String) (t : String), t ∈ (fun l => l) l → t ∈ l) ∧
    (∀ (n : ℕ) (l : List String) (t : String),
        t ∈ (fun (_ : ℕ) (l : List String) => l) n l → t ∈ l) ∧
    (∀ x ∈ seenSet (run_comprehensive_scraping ⟨fun _ => .notFound⟩ [] []
        (fun l => l) (fun _ l => l)).1,
      Near ⟨fun _ => .notFound⟩ [] [] max_depth x) :=
  ⟨fun _ _ h => h, fun _ _ _ h => h,
   (c4_depth_bound ⟨fun _ => .notFound⟩ [] [] (fun l => l) (fun _ l => l)
     (fun _ _ h => h) (fun _ _ _ h => h)).1⟩

end AgroScraper
